import Mathlib

/-!
Verification of the OpenRC plugin dispatcher (`src/rc/rc-plugin.c`).

The development shallowly embeds the C source:

* the environment-channel decoder of `rc_plugin_run` (lines 232-245), including
  the `strsep` semantics (scan for the first `=`, overwrite it with NUL, and set
  the rest pointer to NULL when no `=` occurs before the terminator, in which
  case the following `*p` test dereferences NULL);
* the chunked `read` loop (fixed-size buffer, `memset` once, reused across
  reads);
* `rc_waitpid` (lines 129-142) over an explicit stream of `waitpid` results;
* `rc_plugin_run` (lines 144-253) as a state-passing loop over the registry,
  with an oracle for the per-dispatch `pipe`/`fcntl`/`fork` outcomes and the
  child's hook modelled as a function from the inherited environment to the
  bytes it writes on the channel plus its return value;
* `rc_plugin_load` / `rc_plugin_unload` (lines 78-127, 255-268) over an
  explicit heap of `plugin_t` nodes, preserving the fact that the local cursor
  `plugin` is initialised from the global head *before* the unload call.

Machine integers are modelled with `Nat`/`Int`; the process exit status is the
hook's return value reduced modulo 256, which is what `exit` plus
`WEXITSTATUS` deliver on POSIX.
-/

namespace RcPlugin

/-- The NUL byte, the record terminator of the environment channel. -/
def nulChar : Char := Char.ofNat 0

/-- The `=` byte, the key/value separator handed to `strsep`. -/
def eqChar : Char := Char.ofNat 61

/-- The `.` byte; `rc_plugin_load` skips directory entries whose name starts
with it (line 98). -/
def dotChar : Char := Char.ofNat 46

/-- The host environment table: an association list from variable names to
values, both plain byte strings.  Lookup order is irrelevant because keys are
kept unique by `setenv`/`unsetenv`. -/
abbrev Env := List (List Char × List Char)

/-- POSIX `setenv`/`unsetenv` reject a name that is empty or contains `=`
(EINVAL) and leave the environment unchanged. -/
def okName (name : List Char) : Bool :=
  !name.isEmpty && !name.contains eqChar

/-- POSIX `unsetenv`: remove every entry for `name`; invalid names fail with
EINVAL and change nothing (the C code ignores the return value). -/
def unsetenv (name : List Char) (env : Env) : Env :=
  if okName name then env.filter (fun kv => kv.1 != name) else env

/-- POSIX `setenv` with `overwrite = 1`: replace any binding of `name` by
`val`; invalid names fail with EINVAL and change nothing. -/
def setenv (name val : List Char) (env : Env) : Env :=
  if okName name then env.filter (fun kv => kv.1 != name) ++ [(name, val)] else env

/-- POSIX `getenv`: the value bound to `name`, if any. -/
def getenv (name : List Char) (env : Env) : Option (List Char) :=
  (env.find? (fun kv => kv.1 == name)).map (fun kv => kv.2)

/-- The bytes of a C scan from the head of a suffix up to (excluding) the
first byte satisfying `stop`; `none` when the scan runs off the end of the
modelled allocation, which in the C is an out-of-bounds read. -/
def takeUntil (stop : Char → Bool) : List Char → Option (List Char)
  | [] => none
  | c :: cs => if stop c then some [] else (takeUntil stop cs).map (fun t => c :: t)

/-- How a run of the decoder loop can go wrong: reading outside the allocated
buffer, or dereferencing the NULL rest-pointer `strsep` leaves behind when a
NUL-terminated token contains no `=` (the unguarded `if (*p)` at line 238). -/
inductive DecodeErr
  | oobRead
  | nullDeref
deriving DecidableEq

/-- One pass of the decoder loop of `rc_plugin_run` (lines 233-244) over the
read buffer.

State: `buf` is the full allocated buffer (the C `buffer` of `BUFSIZ` bytes),
`nr` the byte count the last `read` returned, `idx` the offset of the cursor
`p`, and `env` the host environment.  Per iteration, mirroring the C:

* `while (*p && p - buffer < nr)`: read `buf[idx]` (out of bounds is an OOB
  read), stop on NUL or on `idx ≥ nr`;
* `token = strsep(&p, "=")`: scan for `=` or NUL.  On `=` at `j`: the `=` is
  overwritten with NUL and the cursor moves to `j + 1`.  On NUL first: the
  rest-pointer becomes NULL, and the subsequent `if (*p)` dereferences NULL;
* `unsetenv(token)`, then if `*p` is non-NUL, `setenv(token, p, 1)` and
  `p += strlen(p) + 1`, else `p++`.

The fuel argument only serves termination; every call below supplies more fuel
than the loop can consume (the cursor strictly advances and leaves the buffer
after at most `buf.length` steps). -/
def decodeLoop : Nat → List Char → Nat → Nat → Env → Except DecodeErr (Env × List Char)
  | 0, _, _, _, _ => .error .oobRead
  | fuel + 1, buf, nr, idx, env =>
    match buf.get? idx with
    | none => .error .oobRead
    | some c =>
      if c = nulChar then .ok (env, buf)
      else if nr ≤ idx then .ok (env, buf)
      else
        match takeUntil (fun ch => ch == eqChar || ch == nulChar) (buf.drop idx) with
        | none => .error .oobRead
        | some token =>
          match buf.get? (idx + token.length) with
          | none => .error .oobRead
          | some stopc =>
            if stopc = eqChar then
              let buf1 := buf.set (idx + token.length) nulChar
              let env1 := unsetenv token env
              match buf1.get? (idx + token.length + 1) with
              | none => .error .oobRead
              | some c2 =>
                if c2 = nulChar then
                  decodeLoop fuel buf1 nr (idx + token.length + 2) env1
                else
                  match takeUntil (fun ch => ch == nulChar) (buf1.drop (idx + token.length + 1)) with
                  | none => .error .oobRead
                  | some val =>
                    decodeLoop fuel buf1 nr (idx + token.length + 1 + val.length + 1)
                      (setenv token val env1)
            else
              .error .nullDeref

/-- Decode one chunk of `nr` bytes sitting at the start of buffer `buf`,
returning the updated environment and the (possibly `strsep`-mutated)
buffer. -/
def decodeChunk (buf : List Char) (nr : Nat) (env : Env) : Except DecodeErr (Env × List Char) :=
  decodeLoop (buf.length + 1) buf nr 0 env

/-- The parent's `read` loop (line 232): each `read` overwrites the first
`nr` bytes of the buffer (the rest keeps its previous contents — the buffer is
`memset` only once, before the first read) and the chunk is decoded in place.
`chunks` is the successive return payloads of `read`; the loop ends when
`read` returns 0 at end of stream. -/
def readLoop : List (List Char) → List Char → Env → Except DecodeErr Env
  | [], _, env => .ok env
  | chunk :: rest, buf, env =>
    match decodeChunk (chunk ++ buf.drop chunk.length) chunk.length env with
    | .error e => .error e
    | .ok (env1, buf1) => readLoop rest buf1 env1

/-- Split a byte stream into the successive payloads a blocking `read` with a
buffer of `n` bytes returns when the whole stream is already available: each
`read` delivers `min n remaining` bytes.  (First argument is fuel; `n = 0`
never occurs since `BUFSIZ ≥ 256`.) -/
def chunksOfAux : Nat → Nat → List Char → List (List Char)
  | 0, _, _ => []
  | _, _, [] => []
  | fuel + 1, n, l => l.take n :: chunksOfAux fuel n (l.drop n)

/-- Function `chunksOf n s` cuts `s` into pieces of at most `n` bytes. -/
def chunksOf (n : Nat) (s : List Char) : List (List Char) :=
  chunksOfAux s.length n s

deriving instance DecidableEq for Except


/-! ## ProcessWait: `rc_waitpid` (lines 129-142) -/

/-- The termination status `waitpid` reports for a reaped process: normal
termination with an 8-bit exit code, or abnormal termination (by a signal). -/
inductive WStatus
  | exited (code : Nat)
  | signaled (sig : Nat)
deriving DecidableEq

/-- The macro `WIFEXITED(status)`. -/
def WIFEXITED : WStatus → Bool
  | .exited _ => true
  | .signaled _ => false

/-- The macro `WEXITSTATUS(status)`: the 8-bit exit code of a normally terminated
process. -/
def WEXITSTATUS : WStatus → Nat
  | .exited code => code
  | .signaled _ => 0

/-- The constant `EXIT_FAILURE` from `stdlib.h`. -/
def EXIT_FAILURE : Int := 1

/-- The `while ((pid = waitpid(savedpid, &status, 0)) > 0)` loop of
`rc_waitpid`: `events` is the stream of successive `waitpid` results as
`(returned pid, reported status)` pairs; an exhausted stream stands for
`waitpid` returning `-1` (no more children), which ends the loop.  `retval`
is updated whenever the returned pid equals the saved pid. -/
def rc_waitpid_loop (savedpid : Int) : List (Int × WStatus) → Int → Int
  | [], retval => retval
  | (pid, status) :: rest, retval =>
    if 0 < pid then
      rc_waitpid_loop savedpid rest
        (if pid = savedpid then
          (if WIFEXITED status then (WEXITSTATUS status : Int) else EXIT_FAILURE)
        else retval)
    else retval

/-- Function `rc_waitpid(pid)`: loop over reaped descendants, starting from the
indeterminate result `-1`. -/
def rc_waitpid (pid : Int) (events : List (Int × WStatus)) : Int :=
  rc_waitpid_loop pid events (-1)

/-- The status reported for the last reaped event matching `savedpid` (the
specification-side reading of the `rc_waitpid` loop). -/
def lastMatchStatus (savedpid : Int) : List (Int × WStatus) → Option WStatus
  | [] => none
  | (pid, status) :: rest =>
    match lastMatchStatus savedpid rest with
    | some s => some s
    | none => if pid = savedpid then some status else none

/-- What the OS hands back for a child that calls `exit(r)`: a normal
termination whose code is `r` truncated to the 8-bit process-exit-code width
(POSIX keeps the low 8 bits of the `exit` argument). -/
def exitStatusOf (r : Int) : Nat :=
  (r % 256).toNat

/-! ## HookDispatcher: `rc_plugin_run` (lines 144-253) -/

/-- The error messages `rc_plugin_load` and `rc_plugin_run` emit through
`eerror`. -/
inductive LogEvent
  | dlopenErr
  | dlsymErr (name : List Char)
  | pipeErr
  | fcntlErr
  | forkErr
deriving DecidableEq

/-- A registry entry as `rc_plugin_run` consumes it.  The hook, when resolved,
is the child's observable behaviour: from the hook type, the value string and
the environment the child inherits at `fork`, the bytes the hook writes on
`rc_environ_fd` and the integer it returns. -/
structure RunPlugin where
  hook : Option (Nat → List Char → Env → (List Char × Int))

/-- The outcome of the fallible system calls `rc_plugin_run` makes for one
dispatched plugin: `pipe`, the two `fcntl` close-on-exec setups (one per pipe
end; each failure is only logged), and `fork`. -/
structure Attempt where
  pipeOk : Bool
  fcntl0Ok : Bool
  fcntl1Ok : Bool
  forkOk : Bool
deriving DecidableEq

/-- All system calls succeed. -/
def okAttempt : Attempt := ⟨true, true, true, true⟩

/-- The `eerror` log the two `fcntl` setup loops produce. -/
def fcntlLog (a : Attempt) : List LogEvent :=
  (if a.fcntl0Ok then [] else [.fcntlErr]) ++ (if a.fcntl1Ok then [] else [.fcntlErr])

/-- The record of one completed dispatch: which registry position ran, the
environment the child inherited at `fork`, the bytes it wrote on the channel,
the integer its hook returned, and the exit status `rc_waitpid` captured. -/
structure DispatchEvent where
  idx : Nat
  envAtFork : Env
  output : List Char
  ret : Int
  status : Int
deriving DecidableEq

/-- Why the dispatch loop ended: end of registry, `pipe` failure (the `return`
at line 182), `fork` failure (the `break` at line 199), or the parent dying in
the decoder (the unguarded `*p`). -/
inductive StopReason
  | done
  | pipeFailed
  | forkFailed
  | crashed
deriving DecidableEq

/-- The observable outcome of one `rc_plugin_run` call. -/
structure RunResult where
  env : Env
  events : List DispatchEvent
  stop : StopReason
  log : List LogEvent
deriving DecidableEq

/-- Decode a full channel stream `out` exactly as the parent does: `read` into
a `bufsiz`-byte buffer that is zeroed once and reused, decoding each chunk in
place. -/
def applyOutput (bufsiz : Nat) (out : List Char) (env : Env) : Except DecodeErr Env :=
  readLoop (chunksOf bufsiz out) (List.replicate bufsiz nulChar) env

/-- The `while (plugin)` dispatch loop of `rc_plugin_run`.  `atts` is the
oracle of system-call outcomes, consumed one entry per plugin that reaches the
`pipe` call (hookless plugins are skipped first, line 173); `idx` numbers the
registry positions.  Mirroring the C:

* `pipe` failure: log and `return` — the whole remaining dispatch is dropped;
* `fcntl` failures: logged only;
* `fork` failure: log and `break` — same observable cut-off, different reason;
* child: runs the hook on the environment inherited at `fork`, writes its
  bytes, and exits with the hook's return value; the parent decodes the
  stream into its own environment, then reaps the child with `rc_waitpid`,
  the OS reporting a normal termination with the low 8 bits of the return
  value.  A decoder crash kills the parent: no event is recorded and no
  further plugin runs. -/
def runLoop (bufsiz : Nat) (hk : Nat) (value : List Char) :
    List RunPlugin → List Attempt → Nat → Env → RunResult
  | [], _, _, env => ⟨env, [], .done, []⟩
  | p :: ps, atts, idx, env =>
    match p.hook with
    | none => runLoop bufsiz hk value ps atts (idx + 1) env
    | some hookFn =>
      let att := atts.headD okAttempt
      if att.pipeOk = false then
        ⟨env, [], .pipeFailed, [.pipeErr]⟩
      else if att.forkOk = false then
        ⟨env, [], .forkFailed, fcntlLog att ++ [.forkErr]⟩
      else
        let res := hookFn hk value env
        match applyOutput bufsiz res.1 env with
        | .error _ => ⟨env, [], .crashed, fcntlLog att⟩
        | .ok env1 =>
          let status := rc_waitpid 1 [(1, .exited (exitStatusOf res.2))]
          let r := runLoop bufsiz hk value ps atts.tail (idx + 1) env1
          ⟨r.env, ⟨idx, env, res.1, res.2, status⟩ :: r.events, r.stop, fcntlLog att ++ r.log⟩

/-- Function `rc_plugin_run(hook, value)`: a no-op when `rc_in_plugin` is set
(lines 152-154), otherwise the dispatch loop over the registry. -/
def rc_plugin_run (rc_in_plugin : Bool) (bufsiz : Nat) (hk : Nat) (value : List Char)
    (plugins : List RunPlugin) (atts : List Attempt) (env : Env) : RunResult :=
  if rc_in_plugin then ⟨env, [], .done, []⟩
  else runLoop bufsiz hk value plugins atts 0 env

/-! ## PluginRegistry: `rc_plugin_load` / `rc_plugin_unload` (lines 78-127, 255-268) -/

/-- The C `plugin_t` node (lines 55-61): name, `dlopen` handle, resolved hook
function pointer (records are only created when resolution succeeded, so the
pointer is always present), and the address of the next node. -/
structure plugin_t where
  name : List Char
  handle : Nat
  hook : Nat
  next : Option Nat
deriving DecidableEq

/-- One directory entry as `rc_plugin_load` sees it: the file name, the handle
`dlopen` would return for it (`none` on open failure), and the function
pointer `dlfunc` resolves for `rc_plugin_hook` (`none` when the symbol is
missing). -/
structure DirEnt where
  name : List Char
  dlopenRes : Option Nat
  dlsymRes : Option Nat
deriving DecidableEq

/-- The registry state: the global head pointer `plugins`, the heap of ever
allocated nodes (addresses are indices; `malloc` is modelled as always
returning fresh memory, and the bytes of a freed node persist, as they do
under a real allocator until reuse), the list of `free`d addresses, the
handles passed to `dlclose`, and the `eerror` log. -/
structure LoadState where
  plugins : Option Nat
  mem : List plugin_t
  freed : List Nat
  closed : List Nat
  log : List LogEvent
deriving DecidableEq

/-- The state before any `rc_plugin_load` call. -/
def emptyLoadState : LoadState := ⟨none, [], [], [], []⟩

/-- Follow `next` pointers from a head through the heap, collecting the
addresses visited; the fuel bounds the walk (any properly built chain is
shorter than the heap). -/
def reach (mem : List plugin_t) : Nat → Option Nat → List Nat
  | 0, _ => []
  | _ + 1, none => []
  | fuel + 1, some a =>
    match mem.get? a with
    | none => []
    | some nd => a :: reach mem fuel nd.next

/-- The addresses of the registry list reachable from the global head. -/
def registryAddrs (st : LoadState) : List Nat :=
  reach st.mem (st.mem.length + 1) st.plugins

/-- The registry contents — the `plugin_t` records in dispatch order. -/
def registryRecords (st : LoadState) : List plugin_t :=
  (registryAddrs st).filterMap (fun a => st.mem.get? a)

/-- Function `rc_plugin_unload()` (lines 255-268): walk the list from the head,
`dlclose` every handle, `free` every node, and reset the head to NULL. -/
def rc_plugin_unload (st : LoadState) : LoadState :=
  { plugins := none
    mem := st.mem
    freed := st.freed ++ registryAddrs st
    closed := st.closed ++ (registryRecords st).map (fun nd => nd.handle)
    log := st.log }

/-- The `while ((d = readdir(dp)))` loop of `rc_plugin_load` (lines 97-125).
`cursor` is the local variable `plugin`; per entry, mirroring the C: hidden
names are skipped; `dlopen` failure is logged and skipped; symbol-resolution
failure is logged, the fresh handle is `dlclose`d and the entry skipped; on
success a node is allocated and linked: when the cursor is non-null its
`next` field is overwritten (even when the cursor dangles into freed memory —
the write lands in the persisting bytes and the global head is left alone),
otherwise the node becomes the new global head.  Returns the final cursor and
state. -/
def loadLoop : List DirEnt → Option Nat → LoadState → Option Nat × LoadState
  | [], cursor, st => (cursor, st)
  | e :: rest, cursor, st =>
    if e.name.head? = some dotChar then loadLoop rest cursor st
    else
      match e.dlopenRes with
      | none => loadLoop rest cursor { st with log := st.log ++ [.dlopenErr] }
      | some h =>
        match e.dlsymRes with
        | none =>
          loadLoop rest cursor
            { st with closed := st.closed ++ [h], log := st.log ++ [.dlsymErr e.name] }
        | some fptr =>
          let addr := st.mem.length
          let node : plugin_t := ⟨e.name, h, fptr, none⟩
          match cursor with
          | some a =>
            let nd := st.mem.getD a node
            loadLoop rest (some addr)
              { st with mem := (st.mem.set a { nd with next := some addr }) ++ [node] }
          | none =>
            loadLoop rest (some addr)
              { st with mem := st.mem ++ [node], plugins := some addr }

/-- Function `rc_plugin_load()` (lines 78-127): a no-op when `rc_in_plugin` is set;
otherwise the local cursor `plugin` is initialised from the global head
(line 82) *before* `rc_plugin_unload()` runs (line 92), then the directory is
scanned — `dir = none` models `opendir` failing, which returns silently with
the (already emptied) registry. -/
def rc_plugin_load (rc_in_plugin : Bool) (dir : Option (List DirEnt)) (st : LoadState) :
    LoadState :=
  if rc_in_plugin then st
  else
    let cursor := st.plugins
    let st1 := rc_plugin_unload st
    match dir with
    | none => st1
    | some entries => (loadLoop entries cursor st1).2

/-! ## Concrete fixtures used by witnesses and counterexamples -/

/-- A hook that writes nothing and returns 0. -/
def trivHook : Nat → List Char → Env → (List Char × Int) :=
  fun _ _ _ => ([], 0)

/-- A hook that emits `FOO=bar\0BAZ=\0` on its channel and returns 0. -/
def fooBazHook : Nat → List Char → Env → (List Char × Int) :=
  fun _ _ _ => ("FOO=bar".toList ++ [nulChar] ++ "BAZ=".toList ++ [nulChar], 0)

/-- A hook that emits `X=1\0` and returns 0. -/
def xEmitHook : Nat → List Char → Env → (List Char × Int) :=
  fun _ _ _ => ("X=1".toList ++ [nulChar], 0)

/-- A hook that reads `X` from the environment it inherited and reports what it
saw through its return value: 7 when `X=1`, 3 otherwise. -/
def xObserveHook : Nat → List Char → Env → (List Char × Int) :=
  fun _ _ env => ([], if getenv "X".toList env = some "1".toList then 7 else 3)

/-- A hook that returns 7. -/
def sevenHook : Nat → List Char → Env → (List Char × Int) :=
  fun _ _ _ => ([], 7)

/-- A directory entry that opens and resolves. -/
def soEntry : DirEnt := ⟨"a.so".toList, some 10, some 20⟩

/-- A directory entry whose open succeeds (handle 11) but whose
`rc_plugin_hook` symbol is missing. -/
def noSymEntry : DirEnt := ⟨"b.so".toList, some 11, none⟩

/-! ## The per-record decoding rule (claim C3) -/

/-- One wire-protocol record `KEY=VALUE` before NUL-termination. -/
structure EnvRecord where
  key : List Char
  val : List Char
deriving DecidableEq

/-- Well-formed record: the key contains neither `=` (the split is at the
first `=`) nor NUL, and the value contains no NUL (it is NUL-terminated on the
wire); a value may contain further `=` bytes. -/
def WFRecord (r : EnvRecord) : Prop :=
  eqChar ∉ r.key ∧ nulChar ∉ r.key ∧ nulChar ∉ r.val

instance (r : EnvRecord) : Decidable (WFRecord r) := by
  unfold WFRecord; infer_instance

/-- The wire encoding of a record: `KEY=VALUE\0`. -/
def encodeRecord (r : EnvRecord) : List Char :=
  r.key ++ [eqChar] ++ r.val ++ [nulChar]

/-- The bytes a decoded record leaves behind in the buffer: `strsep`
overwrites the `=` with NUL. -/
def mutRecord (r : EnvRecord) : List Char :=
  r.key ++ [nulChar] ++ r.val ++ [nulChar]

/-- The wire encoding of a record sequence. -/
def encodeRecords (rs : List EnvRecord) : List Char :=
  (rs.map encodeRecord).flatten

/-- The buffer residue of a decoded record sequence. -/
def mutRecords (rs : List EnvRecord) : List Char :=
  (rs.map mutRecord).flatten

/-- The specified per-record decoding rule: the key is always unset first in
the host environment; it is re-set to the value if and only if the value is
non-empty. -/
def applyRecord (r : EnvRecord) (env : Env) : Env :=
  let env1 := unsetenv r.key env
  if r.val = [] then env1 else setenv r.key r.val env1

/-- The per-record rule applied left to right over a record sequence. -/
def applyRecords (rs : List EnvRecord) (env : Env) : Env :=
  rs.foldl (fun e r => applyRecord r e) env

/-- The two records on the wire in the specified example stream
`FOO=bar\0BAZ=\0`. -/
def fooBazRecords : List EnvRecord :=
  [⟨"FOO".toList, "bar".toList⟩, ⟨"BAZ".toList, []⟩]

/-! ## Supporting lemmas -/

/-- Two attempts that agree on the outcomes that steer control flow (`pipe`
and `fork`); they may differ on the `fcntl` outcomes, which are only
logged. -/
def sameSys (a b : Attempt) : Prop :=
  a.pipeOk = b.pipeOk ∧ a.forkOk = b.forkOk

theorem rc_waitpid_loop_spec (savedpid : Int) (events : List (Int × WStatus)) (r : Int)
    (h : ∀ e ∈ events, 0 < e.1) :
    rc_waitpid_loop savedpid events r =
      (match lastMatchStatus savedpid events with
      | none => r
      | some (.exited c) => (c : Int)
      | some (.signaled _) => EXIT_FAILURE) := by
  induction events generalizing r with
  | nil => rfl
  | cons e rest ih =>
    obtain ⟨pid, status⟩ := e
    have hp : (0 : Int) < pid := h _ (List.mem_cons_self _ _)
    rw [rc_waitpid_loop, if_pos hp, ih _ (fun x hx => h x (List.mem_cons_of_mem _ hx))]
    cases hl : lastMatchStatus savedpid rest with
    | some s => cases s <;> simp [lastMatchStatus, hl]
    | none =>
      by_cases hpid : pid = savedpid
      · cases status <;> simp [lastMatchStatus, hl, hpid, WIFEXITED, WEXITSTATUS]
      · simp [lastMatchStatus, hl, hpid]

theorem rc_waitpid_single (c : Nat) : rc_waitpid 1 [(1, WStatus.exited c)] = (c : Int) := by
  simp [rc_waitpid, rc_waitpid_loop, WIFEXITED, WEXITSTATUS]

theorem runLoop_status_events (bufsiz hk : Nat) (value : List Char) :
    ∀ (ps : List RunPlugin) (atts : List Attempt) (idx : Nat) (env : Env) (ev : DispatchEvent),
      ev ∈ (runLoop bufsiz hk value ps atts idx env).events → ev.status = ev.ret % 256 := by
  intro ps
  induction ps with
  | nil =>
    intro atts idx env ev hmem
    simp [runLoop] at hmem
  | cons p ps ih =>
    intro atts idx env ev hmem
    cases hp : p.hook with
    | none =>
      simp only [runLoop, hp] at hmem
      exact ih _ _ _ _ hmem
    | some hookFn =>
      simp only [runLoop, hp] at hmem
      split at hmem
      · simp at hmem
      · split at hmem
        · simp at hmem
        · split at hmem
          · simp at hmem
          · simp only [List.mem_cons] at hmem
            rcases hmem with hev | hev
            · subst hev
              simp only [rc_waitpid_single, exitStatusOf]
              exact Int.toNat_of_nonneg (Int.emod_nonneg _ (by norm_num))
            · exact ih _ _ _ _ hev

theorem runLoop_head_env (bufsiz hk : Nat) (value : List Char) :
    ∀ (ps : List RunPlugin) (atts : List Attempt) (idx : Nat) (env : Env) (ev : DispatchEvent),
      (runLoop bufsiz hk value ps atts idx env).events.head? = some ev → ev.envAtFork = env := by
  intro ps
  induction ps with
  | nil =>
    intro atts idx env ev hd
    simp [runLoop] at hd
  | cons p ps ih =>
    intro atts idx env ev hd
    cases hp : p.hook with
    | none =>
      simp only [runLoop, hp] at hd
      exact ih _ _ _ _ hd
    | some hookFn =>
      simp only [runLoop, hp] at hd
      split at hd
      · simp at hd
      · split at hd
        · simp at hd
        · split at hd
          · simp at hd
          · simp only [List.head?_cons, Option.some.injEq] at hd
            subst hd
            rfl

theorem runLoop_events_idx_le (bufsiz hk : Nat) (value : List Char) :
    ∀ (ps : List RunPlugin) (atts : List Attempt) (idx : Nat) (env : Env) (ev : DispatchEvent),
      ev ∈ (runLoop bufsiz hk value ps atts idx env).events → idx ≤ ev.idx := by
  intro ps
  induction ps with
  | nil =>
    intro atts idx env ev hmem
    simp [runLoop] at hmem
  | cons p ps ih =>
    intro atts idx env ev hmem
    cases hp : p.hook with
    | none =>
      simp only [runLoop, hp] at hmem
      exact Nat.le_of_succ_le (ih _ _ _ _ hmem)
    | some hookFn =>
      simp only [runLoop, hp] at hmem
      split at hmem
      · simp at hmem
      · split at hmem
        · simp at hmem
        · split at hmem
          · simp at hmem
          · simp only [List.mem_cons] at hmem
            rcases hmem with hev | hev
            · subst hev; exact Nat.le_refl _
            · exact Nat.le_of_succ_le (ih _ _ _ _ hev)

theorem runLoop_sys_frame (bufsiz hk : Nat) (value : List Char) :
    ∀ (ps : List RunPlugin) (atts atts2 : List Attempt) (idx : Nat) (env : Env),
      List.Forall₂ sameSys atts atts2 →
      (runLoop bufsiz hk value ps atts idx env).env =
          (runLoop bufsiz hk value ps atts2 idx env).env ∧
        (runLoop bufsiz hk value ps atts idx env).events =
          (runLoop bufsiz hk value ps atts2 idx env).events ∧
        (runLoop bufsiz hk value ps atts idx env).stop =
          (runLoop bufsiz hk value ps atts2 idx env).stop := by
  intro ps
  induction ps with
  | nil =>
    intro atts atts2 idx env hrel
    exact ⟨rfl, rfl, rfl⟩
  | cons p ps ih =>
    intro atts atts2 idx env hrel
    cases hp : p.hook with
    | none =>
      simp only [runLoop, hp]
      exact ih atts atts2 _ _ hrel
    | some hookFn =>
      have hhead : sameSys (atts.headD okAttempt) (atts2.headD okAttempt) := by
        cases hrel with
        | nil => exact ⟨rfl, rfl⟩
        | cons h _ => exact h
      have htail : List.Forall₂ sameSys atts.tail atts2.tail := by
        cases hrel with
        | nil => exact List.Forall₂.nil
        | cons _ h => exact h
      obtain ⟨hpipe, hfork⟩ := hhead
      simp only [runLoop, hp, hpipe, hfork]
      split
      · exact ⟨rfl, rfl, rfl⟩
      · split
        · exact ⟨rfl, rfl, rfl⟩
        · split
          · exact ⟨rfl, rfl, rfl⟩
          · obtain ⟨henv, hevents, hstop⟩ := ih atts.tail atts2.tail (idx + 1) _ htail
            exact ⟨henv, by rw [hevents], hstop⟩

/-! ## Claim theorems -/

/-- C9: with the reentrancy flag `rc_in_plugin` set, `rc_plugin_load` returns
its state unchanged (registry, heap, handles, log), and `rc_plugin_run`
returns with the host environment unchanged, no plugin dispatched, and nothing
logged. -/
theorem c9_reentrancy_noop (dir : Option (List DirEnt)) (st : LoadState) (bufsiz hk : Nat)
    (value : List Char) (plugins : List RunPlugin) (atts : List Attempt) (env : Env) :
    rc_plugin_load true dir st = st ∧
      rc_plugin_run true bufsiz hk value plugins atts env =
        ⟨env, [], .done, []⟩ :=
  ⟨rfl, rfl⟩

/-- C8: if `fork` fails while dispatching a plugin (after its pipe was
created), `rc_plugin_run` logs the error and breaks out of the dispatch loop:
whatever plugins remain in the registry, no further plugin is invoked — no
event is recorded — and the host environment is exactly the one at the point
of failure. -/
theorem c8_fork_failure_aborts (bufsiz hk : Nat) (value : List Char) (p : RunPlugin)
    (hookFn : Nat → List Char → Env → (List Char × Int)) (ps : List RunPlugin)
    (atts : List Attempt) (idx : Nat) (env : Env)
    (hhook : p.hook = some hookFn)
    (hpipe : (atts.headD okAttempt).pipeOk = true)
    (hfork : (atts.headD okAttempt).forkOk = false) :
    runLoop bufsiz hk value (p :: ps) atts idx env =
      ⟨env, [], .forkFailed, fcntlLog (atts.headD okAttempt) ++ [.forkErr]⟩ := by
  rw [List.headD_eq_head?_getD] at hpipe hfork
  simp [runLoop, hhook, hpipe, hfork, List.headD_eq_head?_getD]

/-- Witness for C8: with two trivial plugins and a first attempt whose `fork`
fails, the dispatch stops with no event and only the fork error logged. -/
theorem c8_fork_failure_aborts_witness :
    runLoop 16 0 [] [⟨some trivHook⟩, ⟨some trivHook⟩] [⟨true, true, true, false⟩] 0 [] =
      ⟨[], [], .forkFailed, [.forkErr]⟩ := by
  have h := c8_fork_failure_aborts 16 0 [] ⟨some trivHook⟩ trivHook [⟨some trivHook⟩]
    [⟨true, true, true, false⟩] 0 [] rfl rfl rfl
  simpa [fcntlLog] using h

/-- C4: the decoder loop of `rc_plugin_run` is not total: on a chunk holding
the NUL-terminated record `ABC\0`, which contains no `=`, `strsep` finds no
delimiter and NULLs the rest-pointer, and the unguarded `if (*p)` dereferences
NULL — the decode of that chunk ends in the null-dereference error branch. -/
theorem c4_no_equals_null_deref :
    decodeChunk ("ABC".toList ++ [nulChar, nulChar]) 4 [] = .error .nullDeref := by
  decide

/-- C1 (code bug): `rc_plugin_load` initialises its cursor `plugin` from the
global head before `rc_plugin_unload` runs, so a second `load` over the same
one-entry directory chains every rebuilt record onto the freed old list and
never re-assigns the global head: the first load yields a one-record registry,
the second yields an *empty* registry — not the identical list the
unload-then-rebuild intent calls for. -/
theorem c1_second_load_loses_registry :
    registryRecords (rc_plugin_load false (some [soEntry]) emptyLoadState) =
        [⟨"a.so".toList, 10, 20, none⟩] ∧
      registryRecords
        (rc_plugin_load false (some [soEntry])
          (rc_plugin_load false (some [soEntry]) emptyLoadState)) = [] := by
  decide

/-- C2 (counterexample): a `pipe` failure does *not* let the dispatch
continue.  With two hooked plugins and the first dispatch attempt failing at
`pipe`, `rc_plugin_run` returns at once: no plugin is dispatched (in
particular not the remaining one) and the loop reports the pipe failure —
contradicting the claim that only fork failure aborts the rest of the
dispatch. -/
theorem c2_pipe_failure_does_not_continue :
    (rc_plugin_run false 16 0 [] [⟨some trivHook⟩, ⟨some trivHook⟩]
        [⟨false, true, true, true⟩] []) =
      ⟨[], [], .pipeFailed, [.pipeErr]⟩ := by
  decide

/-- C2 (amended): a failure while setting the close-on-exec flags is only
logged — the dispatch of that plugin and of all remaining plugins is unchanged
(same environment, same events, same stop reason) — whereas a `pipe` creation
failure is logged and aborts the dispatch there and then, like a fork
failure. -/
theorem c2_amended_fcntl_continues_pipe_aborts (bufsiz hk : Nat) (value : List Char) :
    (∀ (ps : List RunPlugin) (atts atts2 : List Attempt) (idx : Nat) (env : Env),
        List.Forall₂ sameSys atts atts2 →
        (runLoop bufsiz hk value ps atts idx env).env =
            (runLoop bufsiz hk value ps atts2 idx env).env ∧
          (runLoop bufsiz hk value ps atts idx env).events =
            (runLoop bufsiz hk value ps atts2 idx env).events ∧
          (runLoop bufsiz hk value ps atts idx env).stop =
            (runLoop bufsiz hk value ps atts2 idx env).stop) ∧
      ∀ (p : RunPlugin) (hookFn : Nat → List Char → Env → (List Char × Int))
        (ps : List RunPlugin) (atts : List Attempt) (idx : Nat) (env : Env),
        p.hook = some hookFn → (atts.headD okAttempt).pipeOk = false →
        runLoop bufsiz hk value (p :: ps) atts idx env =
          ⟨env, [], .pipeFailed, [.pipeErr]⟩ := by
  constructor
  · exact fun ps atts atts2 idx env hrel => runLoop_sys_frame bufsiz hk value ps atts atts2 idx env hrel
  · intro p hookFn ps atts idx env hhook hpipe
    rw [List.headD_eq_head?_getD] at hpipe
    simp [runLoop, hhook, hpipe]

/-- Witness for the amended C2: an attempt that fails both `fcntl` setups but
succeeds elsewhere dispatches exactly like the all-ok attempt (events,
environment and stop reason agree), and a failing `pipe` on a hooked plugin
stops the run immediately. -/
theorem c2_amended_witness :
    ((runLoop 16 0 [] [⟨some trivHook⟩] [⟨true, false, false, true⟩] 0 []).env =
          (runLoop 16 0 [] [⟨some trivHook⟩] [okAttempt] 0 []).env ∧
        (runLoop 16 0 [] [⟨some trivHook⟩] [⟨true, false, false, true⟩] 0 []).events =
          (runLoop 16 0 [] [⟨some trivHook⟩] [okAttempt] 0 []).events ∧
        (runLoop 16 0 [] [⟨some trivHook⟩] [⟨true, false, false, true⟩] 0 []).stop =
          (runLoop 16 0 [] [⟨some trivHook⟩] [okAttempt] 0 []).stop) ∧
      runLoop 16 0 [] [⟨some trivHook⟩] [⟨false, true, true, true⟩] 0 [] =
        ⟨[], [], .pipeFailed, [.pipeErr]⟩ := by
  have h := c2_amended_fcntl_continues_pipe_aborts 16 0 []
  exact ⟨h.1 [⟨some trivHook⟩] [⟨true, false, false, true⟩] [okAttempt] 0 []
      (List.Forall₂.cons ⟨rfl, rfl⟩ List.Forall₂.nil),
    h.2 ⟨some trivHook⟩ trivHook [] [⟨false, true, true, true⟩] 0 [] rfl rfl⟩

/-- C7: `rc_waitpid` loops over the stream of `waitpid` results (the loop ends
at the first non-positive return, here the end of the stream) and returns the
exit code of the last reaped event matching the saved pid when it terminated
normally, the generic `EXIT_FAILURE` when it terminated abnormally, and the
indeterminate `-1` when no event ever matched the pid. -/
theorem c7_rc_waitpid_spec (pid : Int) (events : List (Int × WStatus))
    (h : ∀ e ∈ events, 0 < e.1) :
    rc_waitpid pid events =
      (match lastMatchStatus pid events with
      | none => -1
      | some (.exited c) => (c : Int)
      | some (.signaled _) => EXIT_FAILURE) :=
  rc_waitpid_loop_spec pid events (-1) h

/-- Witness for C7: a concrete stream in which pid 5 is reaped after an
unrelated child, once normally with code 3 — `rc_waitpid` returns 3; and the
same theorem applied to a stream that never matches returns `-1`. -/
theorem c7_rc_waitpid_spec_witness :
    rc_waitpid 5 [(2, WStatus.exited 0), (5, WStatus.exited 3)] = 3 ∧
      rc_waitpid 5 [(2, WStatus.exited 0)] = -1 :=
  ⟨(c7_rc_waitpid_spec 5 [(2, WStatus.exited 0), (5, WStatus.exited 3)] (by decide)).trans
      (by decide),
    (c7_rc_waitpid_spec 5 [(2, WStatus.exited 0)] (by decide)).trans (by decide)⟩

/-- C6: for every dispatched plugin, the exit status the dispatcher captures
through `exit`/`waitpid` equals the integer its hook returned reduced modulo
256 (the platform exit-code width); in particular a hook that returns 7 is
captured with status 7. -/
theorem c6_exit_status_truncated :
    (∀ (bufsiz hk : Nat) (value : List Char) (ps : List RunPlugin) (atts : List Attempt)
        (idx : Nat) (env : Env) (ev : DispatchEvent),
        ev ∈ (runLoop bufsiz hk value ps atts idx env).events → ev.status = ev.ret % 256) ∧
      (rc_plugin_run false 16 0 [] [⟨some sevenHook⟩] [] []).events.map
          (fun ev => ev.status) = [7] := by
  constructor
  · exact fun bufsiz hk value ps atts idx env ev hmem =>
      runLoop_status_events bufsiz hk value ps atts idx env ev hmem
  · decide

/-- Witness for C6: the event of a concrete dispatch whose hook returns -1 is
in the run's event list, and the theorem yields its captured status
`-1 % 256 = 255`. -/
theorem c6_exit_status_truncated_witness :
    (⟨0, [], [], -1, 255⟩ : DispatchEvent) ∈
        (runLoop 16 0 [] [⟨some (fun _ _ _ => ([], -1))⟩] [] 0 []).events ∧
      (⟨0, [], [], -1, 255⟩ : DispatchEvent).status =
        (⟨0, [], [], -1, 255⟩ : DispatchEvent).ret % 256 := by
  refine ⟨by decide, ?_⟩
  exact c6_exit_status_truncated.1 16 0 [] [⟨some (fun _ _ _ => ([], -1))⟩] [] 0 []
    ⟨0, [], [], -1, 255⟩ (by decide)

theorem get?_append_add (xs ys : List Char) (n : Nat) :
    (xs ++ ys).get? (xs.length + n) = ys.get? n := by
  induction xs with
  | nil => simp
  | cons x xs ih => simpa [Nat.succ_add] using ih

theorem drop_append_add (xs ys : List Char) (n : Nat) :
    (xs ++ ys).drop (xs.length + n) = ys.drop n := by
  induction xs with
  | nil => simp
  | cons x xs ih => simp [Nat.succ_add, ih]

theorem set_append_add (xs ys : List Char) (n : Nat) (c : Char) :
    (xs ++ ys).set (xs.length + n) c = xs ++ ys.set n c := by
  induction xs with
  | nil => simp
  | cons x xs ih => simp [Nat.succ_add, ih]

theorem takeUntil_append (stop : Char → Bool) (xs : List Char) (y : Char) (zs : List Char)
    (hxs : ∀ x ∈ xs, stop x = false) (hy : stop y = true) :
    takeUntil stop (xs ++ y :: zs) = some xs := by
  induction xs with
  | nil => simp [takeUntil, hy]
  | cons x xs ih =>
    have hx := hxs x (List.mem_cons_self _ _)
    simp [takeUntil, hx, ih (fun a ha => hxs a (List.mem_cons_of_mem _ ha))]

theorem decodeLoop_step (f : Nat) (pre : List Char) (r : EnvRecord) (suf : List Char)
    (env : Env) (nr : Nat) (hwf : WFRecord r)
    (hnr : pre.length + (encodeRecord r).length ≤ nr) :
    decodeLoop (f + 1) (pre ++ (encodeRecord r ++ suf)) nr pre.length env =
      decodeLoop f (pre ++ (mutRecord r ++ suf)) nr (pre.length + (encodeRecord r).length)
        (applyRecord r env) := by
  obtain ⟨key, val⟩ := r
  obtain ⟨hkeq, hknul, hvnul⟩ := hwf
  have hkstop : ∀ x ∈ key, ((x == eqChar || x == nulChar) : Bool) = false := by
    intro x hx
    have h1 : ¬x = eqChar := fun h => hkeq (h ▸ hx)
    have h2 : ¬x = nulChar := fun h => hknul (h ▸ hx)
    simp [h1, h2]
  have hlen : (encodeRecord ⟨key, val⟩).length = key.length + val.length + 2 := by
    simp [encodeRecord]
    omega
  have henc : encodeRecord ⟨key, val⟩ ++ suf =
      key ++ (eqChar :: (val ++ nulChar :: suf)) := by
    simp [encodeRecord]
  have hmut : mutRecord ⟨key, val⟩ ++ suf =
      key ++ (nulChar :: (val ++ nulChar :: suf)) := by
    simp [mutRecord]
  rw [henc, hmut, hlen]
  rw [hlen] at hnr
  set S := key ++ (eqChar :: (val ++ nulChar :: suf)) with hS
  set M := key ++ (nulChar :: (val ++ nulChar :: suf)) with hM
  -- the first `*p` read
  have hS0 : ∃ c0, S.get? 0 = some c0 ∧ c0 ≠ nulChar := by
    cases key with
    | nil => exact ⟨eqChar, rfl, by decide⟩
    | cons k ks => exact ⟨k, rfl, fun h => hknul (h ▸ List.mem_cons_self k ks)⟩
  obtain ⟨c0, hc0, hc0nul⟩ := hS0
  have hread1 : (pre ++ S).get? pre.length = some c0 := by
    have h := get?_append_add pre S 0
    rw [Nat.add_zero] at h
    rw [h, hc0]
  -- `strsep` finds the `=`
  have hdrop1 : (pre ++ S).drop pre.length = S := by
    have h := drop_append_add pre S 0
    rw [Nat.add_zero] at h
    rw [h]
    rfl
  have htok : takeUntil (fun ch => ch == eqChar || ch == nulChar) S = some key := by
    rw [hS]
    exact takeUntil_append _ key eqChar _ hkstop (by decide)
  -- the byte that stopped the scan is the `=`
  have hreadEq : (pre ++ S).get? (pre.length + key.length) = some eqChar := by
    have h1 := get?_append_add pre S key.length
    have h2 := get?_append_add key (eqChar :: (val ++ nulChar :: suf)) 0
    rw [Nat.add_zero] at h2
    rw [h1, hS, h2]
    rfl
  -- `strsep` overwrites the `=` with NUL
  have hset : (pre ++ S).set (pre.length + key.length) nulChar = pre ++ M := by
    have h1 := set_append_add pre S key.length nulChar
    have h2 := set_append_add key (eqChar :: (val ++ nulChar :: suf)) 0 nulChar
    rw [Nat.add_zero] at h2
    rw [h1, hS, h2, hM]
    rfl
  simp only [decodeLoop, hread1]
  rw [if_neg hc0nul, if_neg (by omega : ¬nr ≤ pre.length), hdrop1, htok]
  simp only [hreadEq]
  rw [if_pos trivial, hset]
  -- the `if (*p)` read: head of the value
  cases val with
  | nil =>
    have hreadV : (pre ++ M).get? (pre.length + key.length + 1) = some nulChar := by
      have h1 := get?_append_add pre M (key.length + 1)
      have h2 := get?_append_add key (nulChar :: ([] ++ nulChar :: suf)) 1
      rw [← Nat.add_assoc] at h1
      rw [h1, hM, h2]
      rfl
    simp only [hreadV, if_pos rfl]
    have hidx : pre.length + key.length + 2 = pre.length + (key.length + 0 + 2) := by omega
    rw [hidx]
    simp [applyRecord]
  | cons v vs =>
    have hvne : v ≠ nulChar := fun h => hvnul (h ▸ List.mem_cons_self v vs)
    have hvstop : ∀ x ∈ v :: vs, ((x == nulChar) : Bool) = false := by
      intro x hx
      have h2 : ¬x = nulChar := fun h => hvnul (h ▸ hx)
      simp [h2]
    have hreadV : (pre ++ M).get? (pre.length + key.length + 1) = some v := by
      have h1 := get?_append_add pre M (key.length + 1)
      have h2 := get?_append_add key (nulChar :: ((v :: vs) ++ nulChar :: suf)) 1
      rw [← Nat.add_assoc] at h1
      rw [h1, hM, h2]
      rfl
    have hdropV : (pre ++ M).drop (pre.length + key.length + 1) = (v :: vs) ++ nulChar :: suf := by
      have h1 := drop_append_add pre M (key.length + 1)
      have h2 := drop_append_add key (nulChar :: ((v :: vs) ++ nulChar :: suf)) 1
      rw [← Nat.add_assoc] at h1
      rw [h1, hM, h2]
      rfl
    have hval : takeUntil (fun ch => ch == nulChar) ((v :: vs) ++ nulChar :: suf) =
        some (v :: vs) :=
      takeUntil_append _ (v :: vs) nulChar suf hvstop (by decide)
    simp only [hreadV, if_neg hvne, hdropV, hval]
    have hidx : pre.length + key.length + 1 + (v :: vs).length + 1 =
        pre.length + (key.length + (v :: vs).length + 2) := by
      simp
      omega
    rw [hidx]
    simp [applyRecord]

theorem length_le_encodeRecords (rs : List EnvRecord) :
    rs.length <= (encodeRecords rs).length := by
  induction rs with
  | nil => simp [encodeRecords]
  | cons r rs ih =>
    have hr : (encodeRecord r).length = r.key.length + r.val.length + 2 := by
      simp [encodeRecord]
      omega
    simp only [encodeRecords, List.map_cons, List.flatten_cons, List.length_append,
      List.length_cons]
    simp only [encodeRecords] at ih
    omega

theorem decodeLoop_records (rs : List EnvRecord) :
    ∀ (pre rest : List Char) (env : Env) (fuel : Nat),
      (∀ r ∈ rs, WFRecord r) → rest ≠ [] → rs.length < fuel →
      decodeLoop fuel (pre ++ (encodeRecords rs ++ rest))
        (pre.length + (encodeRecords rs).length) pre.length env =
        .ok (applyRecords rs env, pre ++ (mutRecords rs ++ rest)) := by
  induction rs with
  | nil =>
    intro pre rest env fuel hwf hrest hfuel
    obtain ⟨f, rfl⟩ : ∃ f, fuel = f + 1 := ⟨fuel - 1, by omega⟩
    obtain ⟨c, cs, rfl⟩ : ∃ c cs, rest = c :: cs := by
      cases rest with
      | nil => exact absurd rfl hrest
      | cons c cs => exact ⟨c, cs, rfl⟩
    simp only [encodeRecords, mutRecords, List.map_nil, List.flatten_nil, List.nil_append,
      List.length_nil, Nat.add_zero, applyRecords, List.foldl_nil]
    have hread : (pre ++ c :: cs).get? pre.length = some c := by
      have h := get?_append_add pre (c :: cs) 0
      rw [Nat.add_zero] at h
      rw [h]
      rfl
    simp only [decodeLoop, hread]
    by_cases hc : c = nulChar
    · rw [if_pos hc]
    · rw [if_neg hc, if_pos (Nat.le_refl _)]
  | cons r rs ih =>
    intro pre rest env fuel hwf hrest hfuel
    obtain ⟨f, rfl⟩ : ∃ f, fuel = f + 1 := ⟨fuel - 1, by omega⟩
    have hwfr := hwf r (List.mem_cons_self _ _)
    have hshape : encodeRecords (r :: rs) ++ rest =
        encodeRecord r ++ (encodeRecords rs ++ rest) := by
      simp [encodeRecords]
    have hshapeM : mutRecords (r :: rs) ++ rest =
        mutRecord r ++ (mutRecords rs ++ rest) := by
      simp [mutRecords]
    have hlenE : (encodeRecords (r :: rs)).length =
        (encodeRecord r).length + (encodeRecords rs).length := by
      simp [encodeRecords]
    rw [hshape, hshapeM, hlenE]
    have hstep := decodeLoop_step f pre r (encodeRecords rs ++ rest) env
      (pre.length + ((encodeRecord r).length + (encodeRecords rs).length)) hwfr (by omega)
    rw [hstep]
    have hmutlen : (mutRecord r).length = (encodeRecord r).length := by
      simp [mutRecord, encodeRecord]
    have hih := ih (pre ++ mutRecord r) rest (applyRecord r env) f
      (fun x hx => hwf x (List.mem_cons_of_mem _ hx)) hrest (by simp at hfuel; omega)
    rw [List.append_assoc, List.append_assoc] at hih
    rw [List.length_append, hmutlen] at hih
    rw [Nat.add_assoc] at hih
    rw [hih]
    simp [applyRecords]

/-- C3: for every chunk made of NUL-terminated `KEY=VALUE` records falling
entirely within it, the decoder splits each record at the first `=`, always
unsets `KEY` in the host environment first, and re-sets it to the remainder if
and only if the remainder is non-empty (`applyRecord`); and in particular a
plugin emitting `FOO=bar\0BAZ=\0` and returning 0 leaves `FOO` set to `bar`,
`BAZ` unset (not set to the empty string), and a recorded exit status of 0.
(The trailing bytes `rest` model the rest of the `BUFSIZ` buffer beyond the
bytes `read` returned — in the C the chunk never fills the whole buffer
without the boundary `*p` read going out of bounds.) -/
theorem c3_record_decoding :
    (∀ (rs : List EnvRecord) (rest : List Char) (env : Env),
        (∀ r ∈ rs, WFRecord r) → rest ≠ [] →
        decodeChunk (encodeRecords rs ++ rest) (encodeRecords rs).length env =
          .ok (applyRecords rs env, mutRecords rs ++ rest)) ∧
      (getenv "FOO".toList
            (rc_plugin_run false 16 0 [] [⟨some fooBazHook⟩] []
              [("BAZ".toList, "x".toList)]).env = some "bar".toList ∧
        getenv "BAZ".toList
            (rc_plugin_run false 16 0 [] [⟨some fooBazHook⟩] []
              [("BAZ".toList, "x".toList)]).env = none ∧
        (rc_plugin_run false 16 0 [] [⟨some fooBazHook⟩] []
              [("BAZ".toList, "x".toList)]).events.map (fun ev => ev.status) = [0] ∧
        (rc_plugin_run false 16 0 [] [⟨some fooBazHook⟩] []
              [("BAZ".toList, "x".toList)]).stop = .done) := by
  constructor
  · intro rs rest env hwf hrest
    have hle := length_le_encodeRecords rs
    have hfuel : rs.length < (encodeRecords rs ++ rest).length + 1 := by
      simp only [List.length_append]
      omega
    have h := decodeLoop_records rs [] rest env ((encodeRecords rs ++ rest).length + 1)
      hwf hrest hfuel
    simpa [decodeChunk] using h
  · refine ⟨by decide, by decide, by decide, by decide⟩

/-- Witness for C3: the general record-decoding theorem applied to the
concrete two-record stream `FOO=bar\0BAZ=\0` (well-formedness and the
non-empty buffer residue discharged by computation). -/
theorem c3_record_decoding_witness :
    decodeChunk (encodeRecords fooBazRecords ++ [nulChar])
        (encodeRecords fooBazRecords).length [("BAZ".toList, "x".toList)] =
      .ok (applyRecords fooBazRecords [("BAZ".toList, "x".toList)],
        mutRecords fooBazRecords ++ [nulChar]) :=
  c3_record_decoding.1 fooBazRecords [nulChar] [("BAZ".toList, "x".toList)]
    (by decide) (by decide)

/-- C5: plugins are dispatched strictly sequentially in registry order, and
every environment mutation decoded from a dispatched plugin's channel is
applied to the host environment before the next plugin is forked: for any two
consecutive dispatch events, the later plugin's fork-time environment is
exactly the result of decoding the earlier plugin's channel output into the
earlier plugin's fork-time environment, and its registry position is strictly
later. -/
theorem c5_sequential_env_ordering (bufsiz hk : Nat) (value : List Char) :
    ∀ (ps : List RunPlugin) (atts : List Attempt) (idx i : Nat) (env : Env)
      (e1 e2 : DispatchEvent),
      (runLoop bufsiz hk value ps atts idx env).events.get? i = some e1 →
      (runLoop bufsiz hk value ps atts idx env).events.get? (i + 1) = some e2 →
      applyOutput bufsiz e1.output e1.envAtFork = .ok e2.envAtFork ∧ e1.idx < e2.idx := by
  intro ps
  induction ps with
  | nil =>
    intro atts idx i env e1 e2 h1 _
    simp [runLoop] at h1
  | cons p ps ih =>
    intro atts idx i env e1 e2 h1 h2
    cases hp : p.hook with
    | none =>
      simp only [runLoop, hp] at h1 h2
      exact ih atts (idx + 1) i env e1 e2 h1 h2
    | some hookFn =>
      simp only [runLoop, hp] at h1 h2
      by_cases hpipe : (atts.headD okAttempt).pipeOk = false
      · rw [if_pos hpipe] at h1
        simp at h1
      · rw [if_neg hpipe] at h1 h2
        by_cases hfork : (atts.headD okAttempt).forkOk = false
        · rw [if_pos hfork] at h1
          simp at h1
        · rw [if_neg hfork] at h1 h2
          cases happ : applyOutput bufsiz (hookFn hk value env).1 env with
          | error e =>
            simp only [happ] at h1
            simp at h1
          | ok env1 =>
            simp only [happ] at h1 h2
            cases i with
            | zero =>
              have he1 : e1 = ⟨idx, env, (hookFn hk value env).1, (hookFn hk value env).2,
                  rc_waitpid 1 [(1, .exited (exitStatusOf (hookFn hk value env).2))]⟩ := by
                simp only [List.get?, Option.some.injEq] at h1
                exact h1.symm
              have h2a : (runLoop bufsiz hk value ps atts.tail (idx + 1) env1).events.get? 0 =
                  some e2 := by
                simpa [List.get?] using h2
              have hmem : e2 ∈ (runLoop bufsiz hk value ps atts.tail (idx + 1) env1).events :=
                List.get?_mem h2a
              have hidxle := runLoop_events_idx_le bufsiz hk value ps atts.tail (idx + 1) env1
                e2 hmem
              have henv : e2.envAtFork = env1 := by
                cases hev : (runLoop bufsiz hk value ps atts.tail (idx + 1) env1).events with
                | nil => rw [hev] at h2a; simp at h2a
                | cons x xs =>
                  rw [hev] at h2a
                  simp only [List.get?, Option.some.injEq] at h2a
                  subst h2a
                  exact runLoop_head_env bufsiz hk value ps atts.tail (idx + 1) env1 _
                    (by rw [hev]; rfl)
              subst he1
              refine ⟨?_, ?_⟩
              · rw [henv]
                exact happ
              · exact Nat.lt_of_lt_of_le (Nat.lt_succ_self idx) hidxle
            | succ n =>
              simp only [List.get?] at h1 h2
              exact ih atts.tail (idx + 1) n env1 e1 e2 h1 h2

/-- Witness for C5: the two-plugin run in which the first emits `X=1\0`; the
theorem applied to its two concrete dispatch events says the second plugin was
forked in the environment obtained by decoding `X=1\0` (so its hook observed
`X=1`, returning 7), strictly after the first. -/
theorem c5_sequential_env_ordering_witness :
    applyOutput 16 ("X=1".toList ++ [nulChar]) [] = .ok [("X".toList, "1".toList)] ∧
      (0 : Nat) < 1 := by
  have h := c5_sequential_env_ordering 16 0 [] [⟨some xEmitHook⟩, ⟨some xObserveHook⟩] [] 0 0 []
    ⟨0, [], "X=1".toList ++ [nulChar], 0, 0⟩
    ⟨1, [("X".toList, "1".toList)], [], 7, 7⟩ (by decide) (by decide)
  simpa using h

theorem rc_plugin_load_scan (entries : List DirEnt) (st : LoadState) :
    rc_plugin_load false (some entries) st =
      (loadLoop entries st.plugins (rc_plugin_unload st)).2 := rfl

theorem loadLoop_append (xs ys : List DirEnt) :
    ∀ (c : Option Nat) (st : LoadState),
      loadLoop (xs ++ ys) c st = loadLoop ys (loadLoop xs c st).1 (loadLoop xs c st).2 := by
  induction xs with
  | nil => intro c st; rfl
  | cons e xs ih =>
    intro c st
    simp only [List.cons_append, loadLoop]
    split
    · exact ih c st
    · split
      · exact ih c _
      · split
        · exact ih c _
        · split
          · exact ih _ _
          · exact ih _ _

theorem loadLoop_frame (es : List DirEnt) :
    ∀ (c : Option Nat) (st1 st2 : LoadState), st1.mem = st2.mem → st1.plugins = st2.plugins →
      (loadLoop es c st1).1 = (loadLoop es c st2).1 ∧
        (loadLoop es c st1).2.mem = (loadLoop es c st2).2.mem ∧
        (loadLoop es c st1).2.plugins = (loadLoop es c st2).2.plugins := by
  induction es with
  | nil =>
    intro c st1 st2 hm hp
    exact ⟨rfl, hm, hp⟩
  | cons e es ih =>
    intro c st1 st2 hm hp
    simp only [loadLoop]
    split
    · exact ih c st1 st2 hm hp
    · cases hop : e.dlopenRes with
      | none =>
        simp only [hop]
        exact ih c _ _ (by simpa using hm) (by simpa using hp)
      | some h =>
        cases hsym : e.dlsymRes with
        | none =>
          simp only [hop, hsym]
          exact ih c _ _ (by simpa using hm) (by simpa using hp)
        | some fptr =>
          simp only [hop, hsym]
          cases c with
          | some a =>
            rw [hm]
            exact ih _ _ _ (by simp) (by simpa using hp)
          | none =>
            rw [hm]
            exact ih _ _ _ (by simp) (by simp)

theorem loadLoop_closed_extends (es : List DirEnt) :
    ∀ (c : Option Nat) (st : LoadState),
      ∃ t, (loadLoop es c st).2.closed = st.closed ++ t := by
  induction es with
  | nil =>
    intro c st
    exact ⟨[], by simp [loadLoop]⟩
  | cons e es ih =>
    intro c st
    simp only [loadLoop]
    split
    · exact ih c st
    · cases hop : e.dlopenRes with
      | none =>
        simp only [hop]
        obtain ⟨t, ht⟩ := ih c { st with log := st.log ++ [.dlopenErr] }
        exact ⟨t, by simpa using ht⟩
      | some h =>
        cases hsym : e.dlsymRes with
        | none =>
          simp only [hop, hsym]
          obtain ⟨t, ht⟩ := ih c
            { st with closed := st.closed ++ [h], log := st.log ++ [.dlsymErr e.name] }
          exact ⟨[h] ++ t, by simpa [List.append_assoc] using ht⟩
        | some fptr =>
          simp only [hop, hsym]
          cases c with
          | some a =>
            obtain ⟨t, ht⟩ := ih (some st.mem.length) _
            exact ⟨t, by simpa using ht⟩
          | none =>
            obtain ⟨t, ht⟩ := ih (some st.mem.length) _
            exact ⟨t, by simpa using ht⟩

theorem registryRecords_eq_of (st1 st2 : LoadState) (hm : st1.mem = st2.mem)
    (hp : st1.plugins = st2.plugins) : registryRecords st1 = registryRecords st2 := by
  simp [registryRecords, registryAddrs, hm, hp]

/-- C10: a directory entry whose `dlopen` succeeds (handle `h`) but whose
`rc_plugin_hook` symbol fails to resolve has its just-opened handle released
(`h` is passed to `dlclose`) and contributes no registry record: the heap, the
global head — and hence the dispatch-order registry contents — are exactly
those of the same load without that entry, the remaining candidates being
processed as before. -/
theorem c10_symbol_failure_excluded (st : LoadState) (es1 es2 : List DirEnt) (e : DirEnt)
    (h : Nat) (hname : ¬e.name.head? = some dotChar) (hopen : e.dlopenRes = some h)
    (hsym : e.dlsymRes = none) :
    h ∈ (rc_plugin_load false (some (es1 ++ e :: es2)) st).closed ∧
      (rc_plugin_load false (some (es1 ++ e :: es2)) st).mem =
        (rc_plugin_load false (some (es1 ++ es2)) st).mem ∧
      (rc_plugin_load false (some (es1 ++ e :: es2)) st).plugins =
        (rc_plugin_load false (some (es1 ++ es2)) st).plugins ∧
      registryRecords (rc_plugin_load false (some (es1 ++ e :: es2)) st) =
        registryRecords (rc_plugin_load false (some (es1 ++ es2)) st) := by
  rw [rc_plugin_load_scan, rc_plugin_load_scan, loadLoop_append es1 (e :: es2),
    loadLoop_append es1 es2]
  have hstepE : loadLoop (e :: es2) (loadLoop es1 st.plugins (rc_plugin_unload st)).1
      (loadLoop es1 st.plugins (rc_plugin_unload st)).2 =
      loadLoop es2 (loadLoop es1 st.plugins (rc_plugin_unload st)).1
        { (loadLoop es1 st.plugins (rc_plugin_unload st)).2 with
          closed := (loadLoop es1 st.plugins (rc_plugin_unload st)).2.closed ++ [h],
          log := (loadLoop es1 st.plugins (rc_plugin_unload st)).2.log ++ [.dlsymErr e.name] } := by
    simp only [loadLoop, if_neg hname, hopen, hsym]
  rw [hstepE]
  obtain ⟨t, ht⟩ := loadLoop_closed_extends es2
    (loadLoop es1 st.plugins (rc_plugin_unload st)).1
    { (loadLoop es1 st.plugins (rc_plugin_unload st)).2 with
      closed := (loadLoop es1 st.plugins (rc_plugin_unload st)).2.closed ++ [h],
      log := (loadLoop es1 st.plugins (rc_plugin_unload st)).2.log ++ [.dlsymErr e.name] }
  obtain ⟨hc, hm, hp⟩ := loadLoop_frame es2
    (loadLoop es1 st.plugins (rc_plugin_unload st)).1
    { (loadLoop es1 st.plugins (rc_plugin_unload st)).2 with
      closed := (loadLoop es1 st.plugins (rc_plugin_unload st)).2.closed ++ [h],
      log := (loadLoop es1 st.plugins (rc_plugin_unload st)).2.log ++ [.dlsymErr e.name] }
    (loadLoop es1 st.plugins (rc_plugin_unload st)).2 rfl rfl
  refine ⟨?_, hm, hp, registryRecords_eq_of _ _ hm hp⟩
  rw [ht]
  simp

/-- Witness for C10: loading a directory holding a symbol-less entry (handle
11) followed by a good one — the theorem yields that 11 was `dlclose`d and the
registry equals that of loading the good entry alone. -/
theorem c10_symbol_failure_excluded_witness :
    (11 : Nat) ∈ (rc_plugin_load false (some [noSymEntry, soEntry]) emptyLoadState).closed ∧
      registryRecords (rc_plugin_load false (some [noSymEntry, soEntry]) emptyLoadState) =
        registryRecords (rc_plugin_load false (some [soEntry]) emptyLoadState) := by
  have hfull := c10_symbol_failure_excluded emptyLoadState [] [soEntry] noSymEntry 11
    (by decide) rfl rfl
  exact ⟨by simpa using hfull.1, by simpa using hfull.2.2.2⟩

end RcPlugin
